import Mathlib

/-!
Shallow embedding of the codesense_mcp_poc scanner (src/scanner.py,
src/token_manager.py, src/mcp_pr_creator.py) and proofs about it.

Machine conventions:
* Python strings are Lean `String` (a structure over `List Char`); helper
  functions that Python gets from its standard library (`str.split`,
  `str.strip`, `str.replace`, substring tests) are defined here by
  structural recursion over the character list so that the kernel can
  evaluate them.
* Python `None` / exceptions are `Option` / `Except String`.
* Integer comparisons against Python float division (`m > n / 2`) are
  modelled exactly as rational comparisons (`2 * m > n`), which agrees with
  the source for every realistic list length.
-/

namespace CodeSense

/-- Model of `class RiskLevel(Enum)` in scanner.py: values low, medium, high. -/
inductive RiskLevel where
  | low
  | medium
  | high
deriving DecidableEq, Repr

/-- Model of `RiskLevel.value` (the enum's string payload). -/
def RiskLevel.value : RiskLevel → String
  | .low => "low"
  | .medium => "medium"
  | .high => "high"

/-- Model of `@dataclass FileAnalysis` in scanner.py. -/
structure FileAnalysis where
  file_path : String
  original_code : String
  refactored_code : String
  changes_made : List String
  risk_level : RiskLevel
  risk_reasoning : String
  functions_documented : Nat
  lines_changed : Nat
deriving DecidableEq, Repr

/-- Number of analyses with the given risk level; models the
`risk_counts` dictionary built by the counting loop in
`_calculate_overall_risk`. -/
def countRisk (analyses : List FileAnalysis) (r : RiskLevel) : Nat :=
  (analyses.filter (fun a => a.risk_level = r)).length

/-- Model of `CodebaseScanner._calculate_overall_risk` (scanner.py:412-434).
The Python comparison `risk_counts[MEDIUM] > len(analyses) / 2` uses exact
float division of integers and is rendered as `2 * medium > length`. -/
def calculate_overall_risk (analyses : List FileAnalysis) : RiskLevel :=
  if analyses.isEmpty then .low
  else if 0 < countRisk analyses .high then .high
  else if analyses.length < 2 * countRisk analyses .medium then .medium
  else .low

/-- Split on a separator character, accumulating the current chunk
(reversed) while walking the character list; engine for Python
`s.split(c)`. -/
def splitCharAux (sep : Char) : List Char → List Char → List String
  | acc, [] => [⟨acc.reverse⟩]
  | acc, c :: rest =>
    if c = sep then ⟨acc.reverse⟩ :: splitCharAux sep [] rest
    else splitCharAux sep (c :: acc) rest

/-- Model of Python `s.split('\n')`: always at least one chunk, a trailing
newline yields a final empty chunk. -/
def splitLines (s : String) : List String := splitCharAux '\n' [] s.data

/-- ASCII whitespace recognized by Python `str.strip()`. -/
def isPySpace (c : Char) : Bool :=
  c = ' ' || c = '\t' || c = '\n' || c = '\r' || c = '\x0b' || c = '\x0c'

/-- Model of Python `s.strip()`. -/
def pyStrip (s : String) : String :=
  ⟨((s.data.dropWhile isPySpace).reverse.dropWhile isPySpace).reverse⟩

/-- Model of Python `s.lower()` (ASCII range, which covers all inputs used
by the scanner's keyword matching). -/
def strToLower (s : String) : String := ⟨s.data.map Char.toLower⟩

/-- Model of Python `s.upper()` (ASCII range). -/
def strToUpper (s : String) : String := ⟨s.data.map Char.toUpper⟩

/-- Does `needle` occur as a contiguous block somewhere in the list? -/
def containsSubAux (needle : List Char) : List Char → Bool
  | [] => needle.isEmpty
  | c :: rest => needle.isPrefixOf (c :: rest) || containsSubAux needle rest

/-- Model of the Python substring test `needle in hay`. -/
def pyContains (hay needle : String) : Bool := containsSubAux needle.data hay.data

/-- Model of Python `s.startswith(p)`. -/
def pyStartsWith (s p : String) : Bool := p.data.isPrefixOf s.data

/-- Model of Python `sep.join(chunks)`. -/
def joinWith (sep : String) : List String → String
  | [] => ""
  | [x] => x
  | x :: y :: xs => x ++ sep ++ joinWith sep (y :: xs)

/-- Model of `CodebaseScanner._count_lines_changed` (scanner.py:322-327):
`len(set(original.split('\n')).symmetric_difference(set(refactored.split('\n'))))`. -/
def count_lines_changed (original refactored : String) : Nat :=
  (symmDiff (splitLines original).toFinset (splitLines refactored).toFinset).card

/-- Default of `prompt_config.get('security_keywords', [...])` in
`_has_critical_security_issues` (scanner.py:352-354). -/
def default_security_keywords : List String :=
  ["security", "vulnerability", "exploit", "injection", "xss", "sql injection"]

/-- Model of `CodebaseScanner._has_critical_security_issues`
(scanner.py:349-368): the loops with early `return True` collapse to
`any`; the Python code lowercases the reasoning and change texts but not
the keywords. -/
def has_critical_security_issues (security_keywords : List String)
    (analyses : List FileAnalysis) : Bool :=
  analyses.any (fun analysis =>
    security_keywords.any (fun keyword =>
      pyContains (strToLower analysis.risk_reasoning) keyword)
    || analysis.changes_made.any (fun change =>
        security_keywords.any (fun keyword =>
          pyContains (strToLower change) keyword)))

/-- Model of `CodebaseScanner._needs_refactoring` (scanner.py:303-320).
The `ast.parse` call and docstring walk are supplied as an oracle:
`none` models a SyntaxError; `some flags` gives, for each
function/class node that `ast.walk` visits, whether `ast.get_docstring`
found a docstring. -/
def needs_refactoring (parsed : Option (List Bool)) (code : String) : Bool :=
  match parsed with
  | none => true
  | some docstringFlags =>
    if docstringFlags.any (fun has => !has) then true
    else if pyContains code "print " && !pyContains code "print(" then true
    else true

/-- First index at which `needle` occurs in the list, scanning left to
right; used to model the leftmost match of `re.search` on a literal. -/
def findSubAux (needle : List Char) : List Char → Nat → Option Nat
  | [], i => if needle.isEmpty then some i else none
  | c :: rest, i =>
    if needle.isPrefixOf (c :: rest) then some i
    else findSubAux needle rest (i + 1)

/-- Model of `re.search(r'<TAG>(.*?)</TAG>', text, re.DOTALL)` followed by
`.group(1)` (scanner.py:245,254): the leftmost match starts at the first
opening tag and the lazy group ends at the first closing tag after it;
`none` when no match exists. -/
def extractTag (tag : String) (text : String) : Option String :=
  let openTag := ("<" ++ tag ++ ">").data
  let closeTag := ("</" ++ tag ++ ">").data
  match findSubAux openTag text.data 0 with
  | none => none
  | some i =>
    let afterOpen := text.data.drop (i + openTag.length)
    match findSubAux closeTag afterOpen 0 with
    | none => none
    | some k => some ⟨afterOpen.take k⟩

/-- Model of the fencing cleanup in `analyze_file` (scanner.py:265-270):
when the analysis text starts with a fenced-code marker, drop its first
line, and also the last line when that line strips to a bare marker. -/
def stripFence (analysis_json : String) : String :=
  if pyStartsWith analysis_json "```" then
    let lines := (splitLines analysis_json).drop 1
    let lines2 :=
      match lines.getLast? with
      | some last => if pyStrip last = "```" then lines.dropLast else lines
      | none => lines
    joinWith "\n" lines2
  else analysis_json

/-- Fields of the `<analysis>` JSON object as the `FileAnalysis`
construction reads them (scanner.py:286-295): `changes_made`,
`risk_level`, `risk_reasoning`, and `functions_documented` with its
`.get(..., 0)` default already applied. A value of this type stands for a
successful `json.loads` on an object carrying these fields; the
`risk_level` string is kept verbatim because the enum conversion happens
later, outside the try block. -/
structure ParsedFields where
  changes_made : List String
  risk_level : String
  risk_reasoning : String
  functions_documented : Nat
deriving DecidableEq, Repr

/-- Model of the Python enum conversion `RiskLevel(value)`
(scanner.py:291): `none` models the `ValueError` raised on a string that
is not one of the three enum payloads. -/
def riskLevelOfString : String → Option RiskLevel
  | "low" => some RiskLevel.low
  | "medium" => some RiskLevel.medium
  | "high" => some RiskLevel.high
  | _ => none

/-- Model of the response-parsing half of `CodebaseScanner.analyze_file`
(scanner.py:244-301). `parseJson` abstracts `json.loads` restricted to
the object shape the code then reads field by field (`none` models a
`JSONDecodeError`, which the source catches). `.ok none` is `return
None`; `.error` is an exception escaping `analyze_file` — the
`ValueError` from `RiskLevel(...)`, which the source does not catch
because its `except` clause only names `json.JSONDecodeError`. -/
def analyzeResponse (parseJson : String → Option ParsedFields)
    (filePath original responseText : String) :
    Except String (Option FileAnalysis) :=
  match extractTag "refactored_code" responseText with
  | none => Except.ok none
  | some rawCode =>
    let refactored_code := pyStrip rawCode
    match extractTag "analysis" responseText with
    | none => Except.ok none
    | some rawAnalysis =>
      let analysis_json := stripFence (pyStrip rawAnalysis)
      match parseJson analysis_json with
      | none => Except.ok none
      | some fields =>
        match riskLevelOfString fields.risk_level with
        | none =>
          Except.error ("ValueError: '" ++ fields.risk_level ++ "' is not a valid RiskLevel")
        | some risk =>
          Except.ok (some {
            file_path := filePath
            original_code := original
            refactored_code := refactored_code
            changes_made := fields.changes_made
            risk_level := risk
            risk_reasoning := fields.risk_reasoning
            functions_documented := fields.functions_documented
            lines_changed := count_lines_changed original refactored_code })

/-- Model of `CodebaseScanner.analyze_file` (scanner.py:190-301) from the
point where the file's content has been read successfully. The second
component records whether the model capability
(`self.anthropic.messages.create`) was invoked; `parsed` is the
`ast.parse` oracle of `needs_refactoring` and `responseText` the model's
reply, consulted only when the model is invoked. -/
def analyze_file (parseJson : String → Option ParsedFields)
    (parsed : Option (List Bool)) (filePath original responseText : String) :
    Except String (Option FileAnalysis) × Bool :=
  if (pyStrip original).length < 50 then (Except.ok none, false)
  else if needs_refactoring parsed original = false then (Except.ok none, false)
  else (analyzeResponse parseJson filePath original responseText, true)

/-- Concrete stand-in for `json.loads` on the demo analysis payload used
by the C2 counterexample: it parses exactly that payload, whose
`risk_level` field holds the unrecognized literal "critical". -/
def demoParseJson : String → Option ParsedFields := fun s =>
  if s = "\x7b\"changes_made\": [\"Added docstrings\"], \"risk_level\": \"critical\", \"risk_reasoning\": \"touches auth\"\x7d" then
    some { changes_made := ["Added docstrings"], risk_level := "critical",
           risk_reasoning := "touches auth", functions_documented := 0 }
  else none

/-- Original file content for the C2 counterexample (long enough to pass
the 50-character minimum). -/
def demoOriginal : String :=
  "def add(a, b):\n    return a + b\n\ndef sub(a, b):\n    return a - b\n"

/-- Model response for the C2 counterexample: both tags present, valid
JSON, but `risk_level` is "critical". -/
def demoResponse : String :=
  "<refactored_code>\ndef add(a, b):\n    return a + b\n</refactored_code>\n" ++
  "<analysis>\n\x7b\"changes_made\": [\"Added docstrings\"], \"risk_level\": \"critical\", \"risk_reasoning\": \"touches auth\"\x7d\n</analysis>"

/-- Minimal model of the JSON values appearing in an MCP response
dictionary (strings and nested objects are the only shapes the workflow
inspects). -/
inductive JV where
  | jstr : String → JV
  | jobj : List (String × JV) → JV

/-- Python `dict.get(key)` on a parsed response object. -/
def lookupJV (key : String) (fields : List (String × JV)) : Option JV :=
  (fields.find? (fun p => p.1 == key)).map (fun p => p.2)

/-- The failure guard `not result or "error" in result` used after each
`_run_mcp_tool` call (scanner.py:688, 717): a missing response (None) or
an empty dict is falsy, and otherwise a present "error" key fails the step. -/
def respFailed : Option (List (String × JV)) → Bool
  | none => true
  | some fields => fields.isEmpty || (lookupJV "error" fields).isSome

/-- Python truthiness for the response values the workflow touches. -/
def jvTruthy : JV → Bool
  | .jstr s => !s.isEmpty
  | .jobj fields => !fields.isEmpty

/-- Python `x or y` over optional values with truthiness, as in
`result_data.get("html_url") or result_data.get("url")`. -/
def pyOrJV (a b : Option JV) : Option JV :=
  match a with
  | some v => if jvTruthy v then some v else b
  | none => b

/-- Model of `CodebaseScanner._create_pr_via_mcp` (scanner.py:634-730),
with the transport results of the two `_run_mcp_tool` calls supplied as
parameters. First component: the returned PR url value (`none` is Python
None, which the source also returns when the response lacks a url);
second component: the names of the MCP tools actually invoked, in order.
A "result" value that is present but not an object is collapsed to the
empty object. -/
def create_pr_via_mcp (pushResult prResult : Option (List (String × JV))) :
    Option JV × List String :=
  if respFailed pushResult then (none, ["push_files"])
  else if respFailed prResult then (none, ["push_files", "create_pull_request"])
  else
    let resultData :=
      match prResult with
      | some fields =>
        match lookupJV "result" fields with
        | some (JV.jobj resultFields) => resultFields
        | _ => []
      | none => []
    (pyOrJV (lookupJV "html_url" resultData) (lookupJV "url" resultData),
     ["push_files", "create_pull_request"])

/-- Split a character list at the first occurrence of `c`; models Python
`s.split(c, 1)` when it yields two pieces (`none` models the unpacking
`ValueError` when `c` is absent). -/
def splitFirstAt (c : Char) : List Char → Option (List Char × List Char)
  | [] => none
  | x :: rest =>
    if x = c then some ([], rest)
    else
      match splitFirstAt c rest with
      | some (a, b) => some (x :: a, b)
      | none => none

/-- Model of one iteration of the line loop in
`TokenManager.load_from_env_file` (token_manager.py:213-217): strip the
line; when it is non-empty, not a comment, and contains '=', split at the
first '=' into key and value. -/
def parseEnvLine (raw : String) : Option (String × String) :=
  let line := pyStrip raw
  if !line.isEmpty && !pyStartsWith line "#" && pyContains line "=" then
    match splitFirstAt '=' line.data with
    | some (key, value) => some (⟨key⟩, ⟨value⟩)
    | none => none
  else none

/-- Model of the assignment `os.environ[key] = value`. -/
def setEnv (env : String → Option String) (key value : String) :
    String → Option String :=
  fun x => if x = key then some value else env x

/-- Model of `TokenManager.load_from_env_file` (token_manager.py:207-217):
when the .env file exists, every key=value line of it is written into the
live environment unconditionally. -/
def load_from_env_file (envFileExists : Bool) (content : String)
    (env : String → Option String) : String → Option String :=
  if envFileExists then
    (splitLines content).foldl
      (fun e line =>
        match parseEnvLine line with
        | some kv => setEnv e kv.1 kv.2
        | none => e) env
  else env

/-- Does this .env line assign the given key? Used to state which
variables a load can touch. -/
def envLineSetsKey (key : String) (line : String) : Bool :=
  match parseEnvLine line with
  | some kv => kv.1 == key
  | none => false

/-- Model of `PurePath.parts` for the relative POSIX paths stored in
`FileAnalysis.file_path`: split on '/' and drop empty segments. -/
def pathParts (p : String) : List String :=
  (splitCharAux '/' [] p.data).filter (fun s => !s.isEmpty)

/-- Model of the package assignment in `_group_by_package`
(scanner.py:333-340): the first path segment when the path has a parent
directory, else "root". -/
def packageOf (analysis : FileAnalysis) : String :=
  let parts := pathParts analysis.file_path
  if parts.length > 1 then parts.headD "" else "root"

/-- Model of `CodebaseScanner._group_by_package` (scanner.py:329-347),
keeping the dict's insertion order as an association list. -/
def group_by_package (analyses : List FileAnalysis) :
    List (String × List FileAnalysis) :=
  analyses.foldl
    (fun packages analysis =>
      let package := packageOf analysis
      if (packages.find? (fun p => p.1 == package)).isSome then
        packages.map (fun p =>
          if p.1 == package then (p.1, p.2 ++ [analysis]) else p)
      else packages ++ [(package, [analysis])]) []

/-- Model of `CodebaseScanner._generate_summary` (scanner.py:436-457). -/
def generate_summary (analyses : List FileAnalysis) (overall_risk : RiskLevel) :
    String :=
  if analyses.isEmpty then "No files needed refactoring"
  else
    let headerLines :=
      ["Analyzed " ++ toString analyses.length ++ " files",
       "Overall Risk: " ++ strToUpper overall_risk.value, "", "Files modified:"]
    let fileLines := analyses.map (fun analysis =>
      ("  • " ++ analysis.file_path ++ " (" ++ analysis.risk_level.value ++ ")") ::
        (analysis.changes_made.take 2).map (fun change => "    - " ++ change))
    let tailLines :=
      ["",
       "Total changes: " ++ toString ((analyses.map (fun a => a.changes_made.length)).sum),
       "Functions documented: " ++ toString ((analyses.map (fun a => a.functions_documented)).sum)]
    joinWith "\n" (headerLines ++ fileLines.flatten ++ tailLines)

/-- Model of `@dataclass CodebaseAnalysis` (scanner.py:44-53), with the
package mapping as an insertion-ordered association list. -/
structure CodebaseAnalysis where
  files : List FileAnalysis
  overall_risk : RiskLevel
  total_files : Nat
  total_changes : Nat
  summary : String
  packages : List (String × List FileAnalysis)
  has_critical_security : Bool

/-- Model of `CodebaseScanner.scan_codebase` (scanner.py:370-410): the
per-file loop collects the non-None `analyze_file` results (supplied here
as `results`) and the aggregate is built from them. -/
def scan_codebase (security_keywords : List String)
    (results : List (Option FileAnalysis)) : CodebaseAnalysis :=
  let analyses := results.filterMap id
  let overall_risk := calculate_overall_risk analyses
  { files := analyses
    overall_risk := overall_risk
    total_files := analyses.length
    total_changes := (analyses.map (fun a => a.changes_made.length)).sum
    summary := generate_summary analyses overall_risk
    packages := group_by_package analyses
    has_critical_security := has_critical_security_issues security_keywords analyses }

/-- The §4.2 aggregation as a pure function of the per-file risk levels
alone; used to state that the overall risk depends on nothing else. -/
def riskOfLevels (levels : List RiskLevel) : RiskLevel :=
  if levels.isEmpty then .low
  else if 0 < (levels.filter (fun l => l = .high)).length then .high
  else if levels.length < 2 * (levels.filter (fun l => l = .medium)).length then .medium
  else .low

/-- Fuel-based engine for Python `s.replace(old, new)`: scan left to
right and replace non-overlapping occurrences of `pattern`; after a match
the scan resumes after the replaced text. The fuel bounds the number of
steps and the source length is always sufficient; structural recursion on
the fuel keeps the function kernel-reducible. -/
def pyReplaceAux (pattern repl : List Char) : Nat → List Char → List Char
  | _, [] => []
  | 0, s => s
  | fuel + 1, c :: rest =>
    if !pattern.isEmpty && pattern.isPrefixOf (c :: rest) then
      repl ++ pyReplaceAux pattern repl fuel (rest.drop (pattern.length - 1))
    else c :: pyReplaceAux pattern repl fuel rest

/-- Model of Python `s.replace(pattern, repl)` for non-empty `pattern`:
replaces every non-overlapping occurrence, anywhere in the string. -/
def pyReplace (s pattern repl : String) : String :=
  ⟨pyReplaceAux pattern.data repl.data s.data.length s.data⟩

/-- Fuel-based engine for Python `s.split(sep)` with non-empty `sep`. -/
def pySplitAux (sep : List Char) : Nat → List Char → List Char → List String
  | _, acc, [] => [⟨acc.reverse⟩]
  | 0, acc, rest => [⟨acc.reverse ++ rest⟩]
  | fuel + 1, acc, c :: rest =>
    if !sep.isEmpty && sep.isPrefixOf (c :: rest) then
      ⟨acc.reverse⟩ :: pySplitAux sep fuel [] (rest.drop (sep.length - 1))
    else pySplitAux sep fuel (c :: acc) rest

/-- Model of Python `s.split(sep)` for non-empty `sep`. -/
def pySplit (s sep : String) : List String :=
  pySplitAux sep.data s.data.length [] s.data

/-- Model of the remote-URL parsing shared by
`CodebaseScanner._get_repo_info` (scanner.py:587-597) and
`MCPGitHubPRCreator.get_repo_info` (mcp_pr_creator.py:101-112). This is
the tail transformation applied after the host separator: remove every
occurrence of ".git" (`str.replace` is not anchored to the end), strip,
and split into owner and repo at the first '/'; `none` models the
unpacking `ValueError` when no '/' remains. -/
def repoFromTail (tail : String) : Option (String × String) :=
  match splitFirstAt '/' (pyStrip (pyReplace tail ".git" "")).data with
  | none => none
  | some (owner, repo) => some (⟨owner⟩, ⟨repo⟩)

/-- Branching half of the remote-URL parsing: URL-style syntax first,
then SCP-style, else the ValueError for a non-GitHub remote. -/
def get_repo_info (remote_url : String) : Option (String × String) :=
  if pyContains remote_url "github.com/" then
    repoFromTail ((pySplit remote_url "github.com/").getD 1 "")
  else if pyContains remote_url "github.com:" then
    repoFromTail ((pySplit remote_url "github.com:").getD 1 "")
  else none

/-- A file analysis whose reasoning mentions "xss" in lowercase; used to
show that an uppercase configured keyword never matches. -/
def xssAnalysis : FileAnalysis :=
  { file_path := "a.py", original_code := "", refactored_code := "",
    changes_made := [], risk_level := RiskLevel.low,
    risk_reasoning := "Potential xss attack surface in template rendering",
    functions_documented := 0, lines_changed := 0 }

/-- A file analysis whose risk justification mentions "SQL Injection" in
mixed case, matching the claim's example. -/
def sqlAnalysis : FileAnalysis :=
  { file_path := "db.py", original_code := "", refactored_code := "",
    changes_made := [], risk_level := RiskLevel.high,
    risk_reasoning := "Fixes a SQL Injection vulnerability in query building",
    functions_documented := 0, lines_changed := 0 }

theorem countRisk_pos_iff (analyses : List FileAnalysis) (r : RiskLevel) :
    0 < countRisk analyses r ↔ ∃ a ∈ analyses, a.risk_level = r := by
  simp [countRisk, List.length_pos, List.eq_nil_iff_forall_not_mem, List.mem_filter]

/-- C1. The overall risk computed by `_calculate_overall_risk` is HIGH iff
some analyzed file is HIGH; it is MEDIUM iff no file is HIGH and the number
of MEDIUM files strictly exceeds half the total; it is LOW in the remaining
cases; and on the empty list it is LOW. -/
theorem overall_risk_spec (analyses : List FileAnalysis) :
    (calculate_overall_risk analyses = .high ↔
      ∃ a ∈ analyses, a.risk_level = .high) ∧
    (calculate_overall_risk analyses = .medium ↔
      (¬ ∃ a ∈ analyses, a.risk_level = .high) ∧
        2 * countRisk analyses .medium > analyses.length) ∧
    (calculate_overall_risk analyses = .low ↔
      (¬ ∃ a ∈ analyses, a.risk_level = .high) ∧
        ¬ 2 * countRisk analyses .medium > analyses.length) ∧
    calculate_overall_risk ([] : List FileAnalysis) = .low := by
  rcases hE : analyses.isEmpty with hf | ht
  · have hne : analyses ≠ [] := by
      intro h; rw [h] at hE; simp at hE
    by_cases hh : 0 < countRisk analyses .high
    · have hex : ∃ a ∈ analyses, a.risk_level = .high :=
        (countRisk_pos_iff analyses .high).mp hh
      simp [calculate_overall_risk, hE, hh, hex]
    · have hnex : ¬ ∃ a ∈ analyses, a.risk_level = .high := by
        intro hex
        exact hh ((countRisk_pos_iff analyses .high).mpr hex)
      by_cases hm : analyses.length < 2 * countRisk analyses .medium
      · simp [calculate_overall_risk, hE, hh, hm, hnex]
        try omega
      · simp [calculate_overall_risk, hE, hh, hm, hnex]
        try omega
  · have h0 : analyses = [] := List.isEmpty_iff.mp hE
    subst h0
    simp [calculate_overall_risk, countRisk]

/-- C3. The `lines_changed` count equals the number of distinct lines that
are present in exactly one of the two newline-split versions — each such
line counts once, independent of position or multiplicity — and on the
claim's example (original lines a,b,c versus rewritten lines a,b,d) the
count is 2. -/
theorem lines_changed_symmdiff (original refactored : String) :
    count_lines_changed original refactored =
      (((splitLines original).toFinset ∪ (splitLines refactored).toFinset).filter
        (fun l => ¬ (l ∈ splitLines original ↔ l ∈ splitLines refactored))).card ∧
    count_lines_changed "a\nb\nc" "a\nb\nd" = 2 := by
  constructor
  · have h : symmDiff (splitLines original).toFinset (splitLines refactored).toFinset =
        ((splitLines original).toFinset ∪ (splitLines refactored).toFinset).filter
          (fun l => ¬ (l ∈ splitLines original ↔ l ∈ splitLines refactored)) := by
      ext l
      simp [Finset.mem_symmDiff, Finset.mem_filter, List.mem_toFinset]
      tauto
    rw [count_lines_changed, h]
  · decide

/-- C10. The needs-work check `_needs_refactoring` returns true on every
input: true on a parse failure, true when some function or class lacks a
docstring, and true through the final fallback, so no syntactically
valid, fully documented file is ever classified as not needing work. -/
theorem needs_refactoring_always_true (parsed : Option (List Bool)) (code : String) :
    needs_refactoring parsed code = true := by
  cases parsed <;> simp [needs_refactoring]

/-- C8. A file whose stripped content is shorter than the fixed
50-character minimum is skipped: `analyze_file` returns none and the
model capability is never invoked. -/
theorem analyze_file_skips_small (parseJson : String → Option ParsedFields)
    (parsed : Option (List Bool)) (filePath original responseText : String)
    (h : (pyStrip original).length < 50) :
    analyze_file parseJson parsed filePath original responseText = (Except.ok none, false) := by
  simp [analyze_file, h]

/-- Witness for `analyze_file_skips_small` at a concrete 5-character file. -/
theorem analyze_file_skips_small_witness :
    analyze_file (fun _ => none) none "tiny.py" "x = 1" "<irrelevant>" = (Except.ok none, false) :=
  analyze_file_skips_small _ _ _ _ _ (by decide)

/-- C2 counterexample. On a response carrying both tags and valid JSON
whose `risk_level` is the unrecognized literal "critical", `analyze_file`
does not return none: the enum conversion `RiskLevel(...)` sits outside
the `try` block, so a `ValueError` escapes the analyzer. -/
theorem analyze_file_risk_literal_raises :
    analyze_file demoParseJson (some [false]) "demo.py" demoOriginal demoResponse =
      (Except.error "ValueError: 'critical' is not a valid RiskLevel", true) := by
  rfl

/-- C2 as amended. When the `<refactored_code>` tag is missing, or the
`<analysis>` tag is missing, or the analysis content (after stripping a
fenced-code marker line) is not parseable JSON, the analyzer returns none
without raising; the unrecognized-risk-literal case instead raises, as
the counterexample shows. -/
theorem analyze_response_parse_failure_returns_none
    (parseJson : String → Option ParsedFields) (filePath original responseText : String)
    (h : extractTag "refactored_code" responseText = none ∨
         extractTag "analysis" responseText = none ∨
         ∀ rawAnalysis, extractTag "analysis" responseText = some rawAnalysis →
           parseJson (stripFence (pyStrip rawAnalysis)) = none) :
    analyzeResponse parseJson filePath original responseText = Except.ok none := by
  rcases h with h | h | h
  · simp [analyzeResponse, h]
  · cases h1 : extractTag "refactored_code" responseText with
    | none => simp [analyzeResponse, h1]
    | some rawCode => simp [analyzeResponse, h1, h]
  · cases h1 : extractTag "refactored_code" responseText with
    | none => simp [analyzeResponse, h1]
    | some rawCode =>
      cases h2 : extractTag "analysis" responseText with
      | none => simp [analyzeResponse, h1, h2]
      | some rawAnalysis => simp [analyzeResponse, h1, h2, h rawAnalysis h2]

/-- Witness for `analyze_response_parse_failure_returns_none` on a
response with no tags at all. -/
theorem analyze_response_parse_failure_witness :
    analyzeResponse (fun _ => none) "demo.py" "print(1)" "no tags at all" = Except.ok none :=
  analyze_response_parse_failure_returns_none _ _ _ _ (Or.inl (by rfl))

/-- C6 counterexample. With the configured keyword list ["XSS"], a
justification containing "xss" in lowercase does not set the flag, even
though "XSS" occurs in it as a case-insensitive substring: the source
lowercases only the scanned text, never the keyword. -/
theorem security_flag_uppercase_keyword_missed :
    has_critical_security_issues ["XSS"] [xssAnalysis] = false ∧
    pyContains (strToLower xssAnalysis.risk_reasoning) (strToLower "XSS") = true := by
  decide

/-- C6 as amended. For every keyword list whose entries are already
lowercase (as all the defaults are), the flag is true iff some file's
risk justification or one of its change descriptions contains some
keyword as a case-insensitive substring; keywords containing uppercase
letters never match. -/
theorem security_flag_spec (security_keywords : List String)
    (analyses : List FileAnalysis)
    (hlower : ∀ kw ∈ security_keywords, strToLower kw = kw) :
    (has_critical_security_issues security_keywords analyses = true ↔
      ∃ a ∈ analyses, ∃ kw ∈ security_keywords,
        pyContains (strToLower a.risk_reasoning) (strToLower kw) = true ∨
        ∃ ch ∈ a.changes_made, pyContains (strToLower ch) (strToLower kw) = true) := by
  simp only [has_critical_security_issues, List.any_eq_true, Bool.or_eq_true]
  constructor
  · rintro ⟨a, ha, h | h⟩
    · obtain ⟨kw, hkw, hc⟩ := h
      exact ⟨a, ha, kw, hkw, Or.inl (by rw [hlower kw hkw]; exact hc)⟩
    · obtain ⟨ch, hch, kw, hkw, hc⟩ := h
      exact ⟨a, ha, kw, hkw, Or.inr ⟨ch, hch, by rw [hlower kw hkw]; exact hc⟩⟩
  · rintro ⟨a, ha, kw, hkw, h | h⟩
    · refine ⟨a, ha, Or.inl ⟨kw, hkw, ?_⟩⟩
      rw [← hlower kw hkw]; exact h
    · obtain ⟨ch, hch, hc⟩ := h
      refine ⟨a, ha, Or.inr ⟨ch, hch, kw, hkw, ?_⟩⟩
      rw [← hlower kw hkw]; exact hc

/-- Witness for `security_flag_spec`: with the default keyword list, a
justification containing "SQL Injection" sets the flag. -/
theorem security_flag_spec_witness :
    has_critical_security_issues default_security_keywords [sqlAnalysis] = true :=
  (security_flag_spec default_security_keywords [sqlAnalysis] (by decide)).mpr
    ⟨sqlAnalysis, by simp, "sql injection", by simp [default_security_keywords],
      Or.inl (by decide)⟩

/-- C4. If the push step's structured response is absent or carries an
"error" field, the push-then-create-PR workflow returns failure (no PR
url) and never issues the create-pull-request call; conversely the second
call is attempted only after a push response that exists and has no
"error" field. -/
theorem push_failure_gates_pr (pushResult prResult : Option (List (String × JV))) :
    ((pushResult = none ∨
        ∃ fields, pushResult = some fields ∧ lookupJV "error" fields ≠ none) →
      (create_pr_via_mcp pushResult prResult).1 = none ∧
      "create_pull_request" ∉ (create_pr_via_mcp pushResult prResult).2) ∧
    ("create_pull_request" ∈ (create_pr_via_mcp pushResult prResult).2 →
      ∃ fields, pushResult = some fields ∧ lookupJV "error" fields = none) := by
  by_cases hp : respFailed pushResult = true
  · constructor
    · intro _
      constructor
      · simp [create_pr_via_mcp, hp]
      · simp [create_pr_via_mcp, hp]
    · intro hmem
      simp [create_pr_via_mcp, hp] at hmem
  · constructor
    · intro h
      exfalso
      rcases h with h | ⟨fields, hf, herr⟩
      · rw [h] at hp
        exact hp rfl
      · rw [hf] at hp
        apply hp
        simp [respFailed, Option.isSome_iff_ne_none]
        exact Or.inr herr
    · intro _
      cases hpr : pushResult with
      | none => rw [hpr] at hp; exact absurd rfl hp
      | some fields =>
        refine ⟨fields, rfl, ?_⟩
        rw [hpr] at hp
        simp [respFailed] at hp
        exact Option.not_isSome_iff_eq_none.mp (by simp [hp.2])

/-- Witness for `push_failure_gates_pr`: with no push response at all, no
PR url is produced and the create-pull-request tool is never called. -/
theorem push_failure_gates_pr_witness :
    (create_pr_via_mcp none none).1 = none ∧
    "create_pull_request" ∉ (create_pr_via_mcp none none).2 :=
  (push_failure_gates_pr none none).1 (Or.inl rfl)

/-- C5 counterexample. A variable already set in the live environment is
overwritten by a key=value line of the persisted secret file:
`load_from_env_file` executes `os.environ[key] = value` unconditionally. -/
theorem load_env_overwrites_live :
    load_from_env_file true "GITHUB_TOKEN=from_file"
      (fun x => if x = "GITHUB_TOKEN" then some "from_caller" else none)
      "GITHUB_TOKEN" = some "from_file" ∧
    some ("from_file" : String) ≠ some ("from_caller" : String) := by
  constructor
  · rfl
  · decide

/-- Auxiliary frame lemma for the .env loading fold: a key assigned by no
line keeps its prior value. -/
theorem foldl_env_frame (lines : List String) (env : String → Option String)
    (key : String) (h : ∀ line ∈ lines, envLineSetsKey key line = false) :
    (lines.foldl
      (fun e line =>
        match parseEnvLine line with
        | some kv => setEnv e kv.1 kv.2
        | none => e) env) key = env key := by
  induction lines generalizing env with
  | nil => rfl
  | cons line rest ih =>
    rw [List.foldl_cons]
    rw [ih _ (fun l hl => h l (List.mem_cons_of_mem _ hl))]
    cases hp : parseEnvLine line with
    | none => rfl
    | some kv =>
      have hline := h line (List.mem_cons_self _ _)
      rw [envLineSetsKey, hp] at hline
      have hline2 : (kv.1 == key) = false := hline
      have hne : kv.1 ≠ key := by
        intro hk
        rw [hk] at hline2
        simp at hline2
      simp only [setEnv]
      rw [if_neg (fun hk => hne hk.symm)]

/-- C5 as amended. Loading the persisted secret file writes every
key=value line into the live environment, overwriting the caller's
values; a live variable keeps its value only when no line of the file
assigns its key. -/
theorem load_env_frame (envFileExists : Bool) (content : String)
    (env : String → Option String) (key : String)
    (h : ∀ line ∈ splitLines content, envLineSetsKey key line = false) :
    load_from_env_file envFileExists content env key = env key := by
  cases envFileExists with
  | false => rfl
  | true =>
    show (List.foldl _ env (splitLines content)) key = env key
    exact foldl_env_frame _ _ _ h

/-- Witness for `load_env_frame`: a variable that no file line assigns is
left at its live value. -/
theorem load_env_frame_witness :
    load_from_env_file true "GITHUB_TOKEN=abc\n# note" (fun _ => some "keep") "PATH" =
      some "keep" :=
  load_env_frame true "GITHUB_TOKEN=abc\n# note" (fun _ => some "keep") "PATH" (by decide)

/-- Risk counting commutes with projecting each analysis to its level. -/
theorem countRisk_eq_map (analyses : List FileAnalysis) (r : RiskLevel) :
    countRisk analyses r =
      ((analyses.map (fun a => a.risk_level)).filter (fun l => l = r)).length := by
  induction analyses with
  | nil => rfl
  | cons a rest ih =>
    simp only [countRisk, List.map_cons, List.filter_cons] at *
    by_cases h : a.risk_level = r
    · simp [h, ih]
    · simp [h, ih]

/-- The overall risk of `_calculate_overall_risk` depends only on the
per-file risk levels. -/
theorem calc_eq_riskOfLevels (analyses : List FileAnalysis) :
    calculate_overall_risk analyses =
      riskOfLevels (analyses.map (fun a => a.risk_level)) := by
  cases analyses with
  | nil => rfl
  | cons a rest =>
    simp only [calculate_overall_risk, riskOfLevels, List.map_cons, List.isEmpty_cons,
      List.length_map (a :: rest) (fun x => x.risk_level)]
    rw [countRisk_eq_map (a :: rest) RiskLevel.high, countRisk_eq_map (a :: rest) RiskLevel.medium]
    simp [List.length_map]

/-- C7. Every `CodebaseAnalysis` built by `scan_codebase` satisfies the
aggregate invariant: `total_files` is the length of `files`,
`total_changes` is the summed length of the per-file change lists, and
`overall_risk` is the pure aggregation function applied to the per-file
risk levels of that same list. -/
theorem scan_codebase_invariants (security_keywords : List String)
    (results : List (Option FileAnalysis)) :
    (scan_codebase security_keywords results).total_files =
      (scan_codebase security_keywords results).files.length ∧
    (scan_codebase security_keywords results).total_changes =
      ((scan_codebase security_keywords results).files.map
        (fun f => f.changes_made.length)).sum ∧
    (scan_codebase security_keywords results).overall_risk =
      riskOfLevels ((scan_codebase security_keywords results).files.map
        (fun f => f.risk_level)) :=
  ⟨rfl, rfl, calc_eq_riskOfLevels _⟩

/-- URL-style GitHub remote for an owner/repo pair. -/
def ghUrlHttps (owner repo : String) : String :=
  "https://github.com/" ++ owner ++ "/" ++ repo ++ ".git"

/-- SCP-style GitHub remote for an owner/repo pair. -/
def ghUrlScp (owner repo : String) : String :=
  "git@github.com:" ++ owner ++ "/" ++ repo ++ ".git"

/-- C9 counterexample. On a repository named "my.gitrepo" the parser does
not merely strip the trailing ".git": `str.replace` deletes the interior
".git" as well, returning repo name "myrepo". -/
theorem repo_info_replaces_all_git :
    get_repo_info "https://github.com/owner/my.gitrepo.git" = some ("owner", "myrepo") ∧
    get_repo_info "https://github.com/owner/my.gitrepo.git" ≠ some ("owner", "my.gitrepo") := by
  decide

/-- A non-empty pattern is never a prefix of the empty list. -/
theorem isPrefixOf_nil_eq_false {pattern : List Char} (h : pattern ≠ []) :
    pattern.isPrefixOf ([] : List Char) = false := by
  cases pattern with
  | nil => exact absurd rfl h
  | cons p ps => rfl

/-- Beyond the end of the list, a non-empty pattern never matches. -/
theorem isPrefixOf_drop_ge {pattern : List Char} (hpat : pattern ≠ [])
    {l : List Char} {n : Nat} (hn : l.length ≤ n) :
    pattern.isPrefixOf (l.drop n) = false := by
  rw [List.drop_eq_nil_of_le hn]
  exact isPrefixOf_nil_eq_false hpat

/-- A pattern that fails to match cannot be extended into one that
matches. -/
theorem isPrefixOf_false_of_prefix {p q l : List Char} (hpq : p <+: q)
    (h : p.isPrefixOf l = false) : q.isPrefixOf l = false := by
  cases hq : q.isPrefixOf l with
  | false => rfl
  | true =>
    exfalso
    have : p.isPrefixOf l = true :=
      List.isPrefixOf_iff_prefix.mpr (hpq.trans (List.isPrefixOf_iff_prefix.mp hq))
    rw [this] at h
    exact Bool.true_eq_false.mp h

/-- The substring scan finds a planted occurrence. -/
theorem containsSubAux_of_split (needle a b : List Char) :
    containsSubAux needle (a ++ (needle ++ b)) = true := by
  induction a with
  | nil =>
    cases needle with
    | nil =>
      cases b with
      | nil => rfl
      | cons c rest => simp [containsSubAux, List.isPrefixOf]
    | cons n ns =>
      have hp : (n :: ns).isPrefixOf (n :: (ns ++ b)) = true := by
        have h2 : (n :: ns) <+: (n :: ns) ++ b := List.prefix_append _ _
        exact List.isPrefixOf_iff_prefix.mpr h2
      simp [containsSubAux, hp]
  | cons x xs ih =>
    simp [containsSubAux, ih]

/-- Replacing a pattern that occurs nowhere leaves the list unchanged,
for any fuel. -/
theorem pyReplaceAux_no_occurrence (pattern repl : List Char) (s : List Char)
    (h : ∀ n, pattern.isPrefixOf (s.drop n) = false) (fuel : Nat) :
    pyReplaceAux pattern repl fuel s = s := by
  induction s generalizing fuel with
  | nil => cases fuel <;> rfl
  | cons c rest ih =>
    cases fuel with
    | zero => rfl
    | succ f =>
      have h0 : pattern.isPrefixOf (c :: rest) = false := by
        simpa using h 0
      have hstep : pyReplaceAux pattern repl (f + 1) (c :: rest) =
          c :: pyReplaceAux pattern repl f rest := by
        simp [pyReplaceAux, h0]
      rw [hstep]
      have h' : ∀ n, pattern.isPrefixOf (rest.drop n) = false := fun n => by
        simpa [List.drop_succ_cons] using h (n + 1)
      rw [ih h' f]

/-- Replacing a pattern planted at the very end of the list, with nothing
matching earlier, rewrites exactly that trailing block. -/
theorem pyReplaceAux_trailing (pattern repl : List Char) (hpat : pattern ≠ [])
    (a : List Char)
    (h : ∀ n < a.length, pattern.isPrefixOf ((a ++ pattern).drop n) = false)
    (fuel : Nat) (hfuel : a.length + 1 ≤ fuel) :
    pyReplaceAux pattern repl fuel (a ++ pattern) = a ++ repl := by
  induction a generalizing fuel with
  | nil =>
    cases fuel with
    | zero => omega
    | succ f =>
      obtain ⟨p, ps, rfl⟩ : ∃ p ps, pattern = p :: ps := by
        cases pattern with
        | nil => exact absurd rfl hpat
        | cons p ps => exact ⟨p, ps, rfl⟩
      have hpre : (p :: ps).isPrefixOf (p :: ps) = true :=
        List.isPrefixOf_iff_prefix.mpr (List.prefix_refl _)
      simp only [List.nil_append]
      have hstep : pyReplaceAux (p :: ps) repl (f + 1) (p :: ps) =
          repl ++ pyReplaceAux (p :: ps) repl f (ps.drop ((p :: ps).length - 1)) := by
        simp [pyReplaceAux, hpre]
      rw [hstep]
      have hdrop : ps.drop ((p :: ps).length - 1) = [] := by
        simp [List.drop_eq_nil_of_le]
      rw [hdrop]
      cases f <;> simp [pyReplaceAux]
  | cons x xs ih =>
    cases fuel with
    | zero => simp at hfuel
    | succ f =>
      have h0 : pattern.isPrefixOf (x :: (xs ++ pattern)) = false := by
        simpa using h 0 (by simp)
      have hstep : pyReplaceAux pattern repl (f + 1) ((x :: xs) ++ pattern) =
          x :: pyReplaceAux pattern repl f (xs ++ pattern) := by
        simp [pyReplaceAux, h0]
      rw [hstep]
      have h' : ∀ n < xs.length, pattern.isPrefixOf ((xs ++ pattern).drop n) = false := by
        intro n hn
        have := h (n + 1) (by simp; omega)
        simpa [List.drop_succ_cons] using this
      rw [ih h' f (by simp at hfuel ⊢; omega)]
      simp

/-- Splitting on a separator that occurs nowhere yields one chunk, for
any fuel. -/
theorem pySplitAux_no_occurrence (sep : List Char) (s : List Char)
    (h : ∀ n, sep.isPrefixOf (s.drop n) = false) (fuel : Nat) (acc : List Char) :
    pySplitAux sep fuel acc s = [⟨acc.reverse ++ s⟩] := by
  induction s generalizing fuel acc with
  | nil => cases fuel <;> simp [pySplitAux]
  | cons c rest ih =>
    cases fuel with
    | zero => simp [pySplitAux]
    | succ f =>
      have h0 : sep.isPrefixOf (c :: rest) = false := by
        simpa using h 0
      have hstep : pySplitAux sep (f + 1) acc (c :: rest) =
          pySplitAux sep f (c :: acc) rest := by
        simp [pySplitAux, h0]
      rw [hstep]
      have h' : ∀ n, sep.isPrefixOf (rest.drop n) = false := fun n => by
        simpa [List.drop_succ_cons] using h (n + 1)
      rw [ih h' f (c :: acc)]
      simp

/-- Splitting a list with exactly one planted separator occurrence yields
the two surrounding chunks. -/
theorem pySplitAux_once (sep : List Char) (hsep : sep ≠ []) (b : List Char)
    (hb : ∀ n, sep.isPrefixOf (b.drop n) = false)
    (a : List Char)
    (ha : ∀ n < a.length, sep.isPrefixOf ((a ++ (sep ++ b)).drop n) = false)
    (acc : List Char) (fuel : Nat) (hfuel : a.length + 1 ≤ fuel) :
    pySplitAux sep fuel acc (a ++ (sep ++ b)) = [⟨acc.reverse ++ a⟩, ⟨b⟩] := by
  induction a generalizing acc fuel with
  | nil =>
    cases fuel with
    | zero => omega
    | succ f =>
      obtain ⟨p, ps, rfl⟩ : ∃ p ps, sep = p :: ps := by
        cases sep with
        | nil => exact absurd rfl hsep
        | cons p ps => exact ⟨p, ps, rfl⟩
      have hpre : (p :: ps).isPrefixOf (p :: (ps ++ b)) = true := by
        exact List.isPrefixOf_iff_prefix.mpr (List.prefix_append _ _)
      simp only [List.nil_append, List.cons_append]
      have hstep : pySplitAux (p :: ps) (f + 1) acc (p :: (ps ++ b)) =
          ⟨acc.reverse⟩ :: pySplitAux (p :: ps) f [] ((ps ++ b).drop ((p :: ps).length - 1)) := by
        simp [pySplitAux, hpre]
      rw [hstep]
      have hdrop : (ps ++ b).drop ((p :: ps).length - 1) = b :=
        List.drop_left ps b
      rw [hdrop, pySplitAux_no_occurrence (p :: ps) b hb f []]
      simp
  | cons x xs ih =>
    cases fuel with
    | zero => simp at hfuel
    | succ f =>
      have h0 : sep.isPrefixOf (x :: (xs ++ (sep ++ b))) = false := by
        simpa using ha 0 (by simp)
      have hstep : pySplitAux sep (f + 1) acc ((x :: xs) ++ (sep ++ b)) =
          pySplitAux sep f (x :: acc) (xs ++ (sep ++ b)) := by
        simp [pySplitAux, h0]
      rw [hstep]
      have ha' : ∀ n < xs.length, sep.isPrefixOf ((xs ++ (sep ++ b)).drop n) = false := by
        intro n hn
        have := ha (n + 1) (by simp; omega)
        simpa [List.drop_succ_cons] using this
      rw [ih ha' (x :: acc) f (by simp at hfuel ⊢; omega)]
      simp

/-- Splitting at the first occurrence of a character that is absent from
the left part finds exactly that occurrence. -/
theorem splitFirstAt_append (c : Char) (a b : List Char) (ha : c ∉ a) :
    splitFirstAt c (a ++ c :: b) = some (a, b) := by
  induction a with
  | nil => simp [splitFirstAt]
  | cons x xs ih =>
    have hxc : ¬ x = c := fun h => ha (by simp [h])
    have ha' : c ∉ xs := fun h => ha (List.mem_cons_of_mem _ h)
    simp [splitFirstAt, hxc, ih ha']

/-- C9 as amended. Repository identity resolution parses owner and
repository name from both URL-style and SCP-style remote syntaxes, and
the transformation applied to the owner/repo portion removes every
occurrence of the ".git" substring, not only a trailing extension
(counterexample above); for remotes whose host separator occurs once and
whose owner/repo names contain ".git" only as the trailing extension,
both syntaxes resolve to exactly (owner, repo). -/
theorem repo_info_parses_clean_urls (owner repo : String)
    (hstrip : pyStrip (owner ++ "/" ++ repo) = owner ++ "/" ++ repo)
    (hslash : '/' ∉ owner.data)
    (hsepH : ∀ n < 8, ("github.com/").data.isPrefixOf
      ((ghUrlHttps owner repo).data.drop n) = false)
    (hsepS : ∀ n < 4, ("github.com:").data.isPrefixOf
      ((ghUrlScp owner repo).data.drop n) = false)
    (hnoH : pyContains (ghUrlScp owner repo) "github.com/" = false)
    (htail : ∀ n < (owner ++ "/" ++ repo ++ ".git").length,
      ("github.com").data.isPrefixOf
        ((owner ++ "/" ++ repo ++ ".git").data.drop n) = false)
    (hgit : ∀ n < (owner ++ "/" ++ repo).length,
      (".git").data.isPrefixOf
        ((owner ++ "/" ++ repo ++ ".git").data.drop n) = false) :
    get_repo_info (ghUrlHttps owner repo) = some (owner, repo) ∧
    get_repo_info (ghUrlScp owner repo) = some (owner, repo) := by
  have hcd : (owner ++ "/" ++ repo).data = owner.data ++ '/' :: repo.data := by
    show (owner.data ++ ('/' :: []) ++ repo.data) = owner.data ++ '/' :: repo.data
    simp
  have htd : (owner ++ "/" ++ repo ++ ".git").data =
      (owner ++ "/" ++ repo).data ++ (".git").data := rfl
  -- the tail never contains the host marker, in either direction
  have htail' : ∀ n, ("github.com").data.isPrefixOf
      ((owner ++ "/" ++ repo ++ ".git").data.drop n) = false := by
    intro n
    by_cases hn : n < (owner ++ "/" ++ repo ++ ".git").length
    · exact htail n hn
    · refine isPrefixOf_drop_ge (by decide) ?_
      have hlen : (owner ++ "/" ++ repo ++ ".git").data.length =
          (owner ++ "/" ++ repo ++ ".git").length := rfl
      omega
  have htailH : ∀ n, ("github.com/").data.isPrefixOf
      ((owner ++ "/" ++ repo ++ ".git").data.drop n) = false := fun n =>
    isPrefixOf_false_of_prefix (by decide) (htail' n)
  have htailS : ∀ n, ("github.com:").data.isPrefixOf
      ((owner ++ "/" ++ repo ++ ".git").data.drop n) = false := fun n =>
    isPrefixOf_false_of_prefix (by decide) (htail' n)
  -- removing ".git" from the tail recovers the owner/repo core
  have hrepl : pyReplace (owner ++ "/" ++ repo ++ ".git") ".git" "" =
      owner ++ "/" ++ repo := by
    show (⟨pyReplaceAux (".git").data [] _ _⟩ : String) = _
    rw [htd, pyReplaceAux_trailing (".git").data [] (by decide)
      ((owner ++ "/" ++ repo).data)
      (fun n hn => by
        have := hgit n hn
        rw [htd] at this
        exact this)
      ((owner ++ "/" ++ repo).data ++ (".git").data).length
      (by simp [List.length_append]; omega)]
    rw [List.append_nil]
  have hfromTail : repoFromTail (owner ++ "/" ++ repo ++ ".git") = some (owner, repo) := by
    rw [repoFromTail, hrepl, hstrip, hcd, splitFirstAt_append '/' owner.data repo.data hslash]
  constructor
  · -- URL-style remote
    have hdataH : (ghUrlHttps owner repo).data =
        ("https://").data ++ (("github.com/").data ++
          (owner ++ "/" ++ repo ++ ".git").data) := by
      have h19 : ("https://github.com/" : String).data =
          ("https://").data ++ ("github.com/").data := by decide
      show ("https://github.com/" : String).data ++ owner.data ++ ('/' :: []) ++
          repo.data ++ (".git").data = _
      rw [h19]
      simp [htd, hcd]
    have hcont : pyContains (ghUrlHttps owner repo) "github.com/" = true := by
      show containsSubAux ("github.com/").data (ghUrlHttps owner repo).data = true
      rw [hdataH]
      exact containsSubAux_of_split _ _ _
    have hsplit : pySplit (ghUrlHttps owner repo) "github.com/" =
        ["https://", owner ++ "/" ++ repo ++ ".git"] := by
      show pySplitAux ("github.com/").data (ghUrlHttps owner repo).data.length []
        (ghUrlHttps owner repo).data = _
      rw [hdataH]
      rw [pySplitAux_once ("github.com/").data (by decide)
        ((owner ++ "/" ++ repo ++ ".git").data) htailH ("https://").data
        (fun n hn => by
          have h8 : n < 8 := by
            have : (("https://").data).length = 8 := by decide
            omega
          have := hsepH n h8
          rw [hdataH] at this
          exact this)
        [] _ (by simp [List.length_append])]
      rfl
    rw [get_repo_info, hcont, if_pos rfl, hsplit]
    exact hfromTail
  · -- SCP-style remote
    have hdataS : (ghUrlScp owner repo).data =
        ("git@").data ++ (("github.com:").data ++
          (owner ++ "/" ++ repo ++ ".git").data) := by
      have h15 : ("git@github.com:" : String).data =
          ("git@").data ++ ("github.com:").data := by decide
      show ("git@github.com:" : String).data ++ owner.data ++ ('/' :: []) ++
          repo.data ++ (".git").data = _
      rw [h15]
      simp [htd, hcd]
    have hcont : pyContains (ghUrlScp owner repo) "github.com:" = true := by
      show containsSubAux ("github.com:").data (ghUrlScp owner repo).data = true
      rw [hdataS]
      exact containsSubAux_of_split _ _ _
    have hsplit : pySplit (ghUrlScp owner repo) "github.com:" =
        ["git@", owner ++ "/" ++ repo ++ ".git"] := by
      show pySplitAux ("github.com:").data (ghUrlScp owner repo).data.length []
        (ghUrlScp owner repo).data = _
      rw [hdataS]
      rw [pySplitAux_once ("github.com:").data (by decide)
        ((owner ++ "/" ++ repo ++ ".git").data) htailS ("git@").data
        (fun n hn => by
          have h4 : n < 4 := by
            have : (("git@").data).length = 4 := by decide
            omega
          have := hsepS n h4
          rw [hdataS] at this
          exact this)
        [] _ (by simp [List.length_append])]
      rfl
    rw [get_repo_info, hnoH, if_neg Bool.false_ne_true, hcont, if_pos rfl, hsplit]
    exact hfromTail

/-- Witness for `repo_info_parses_clean_urls` at a clean owner/repo pair,
over both remote syntaxes. -/
theorem repo_info_parses_clean_urls_witness :
    get_repo_info (ghUrlHttps "octo" "hello-world") = some ("octo", "hello-world") ∧
    get_repo_info (ghUrlScp "octo" "hello-world") = some ("octo", "hello-world") :=
  repo_info_parses_clean_urls "octo" "hello-world" (by decide) (by decide)
    (by decide) (by decide) (by decide) (by decide) (by decide)

end CodeSense
